import Mathlib

/-!
Verification of the identity-matching core of the alumni-chat gatekeeper bot
(`Check_30kaUser_bot.py`).

A Python string is modelled as a list of Unicode codepoints (`List Nat`).
The built-in string operations used by the source (`strip`, `split`,
`split('\n')`, `split(':', 1)`, `lower`, `replace`, `isdigit`, `isalpha`,
`int(...)`) are given explicit codepoint-level definitions, restricted to the
ASCII and Cyrillic ranges that the program's domain uses (the spec's declared
scope: Cyrillic/Latin name tokens).  The external PostgreSQL store is modelled
as a function `Int → Int → Option (List PyStr)` returning the `fio` column of
the rows matching `(year, klass)`; `none` models a connection/query failure
(the `except` branch of the source).
-/

/-- A Python string: the list of its Unicode codepoints. -/
abbrev PyStr := List Nat

/-- Codepoints of a Lean string literal, for writing concrete Python strings. -/
def pys (s : String) : PyStr := s.toList.map Char.toNat

/-- Python `str.isspace` for one character (the ASCII whitespace class used by
`strip()`/`split()`): space, tab, LF, VT, FF, CR. -/
def isSpace (c : Nat) : Bool := decide (c = 32 ∨ c = 9 ∨ c = 10 ∨ c = 11 ∨ c = 12 ∨ c = 13)

/-- An ASCII decimal digit `0`-`9`. -/
def isDigitC (c : Nat) : Bool := decide (48 ≤ c ∧ c ≤ 57)

/-- A letter, over the Latin and Cyrillic ranges the program's domain uses
(A-Z, a-z, А-я, Ё, ё). -/
def isAlphaC (c : Nat) : Bool :=
  decide ((65 ≤ c ∧ c ≤ 90) ∨ (97 ≤ c ∧ c ≤ 122) ∨ (1040 ≤ c ∧ c ≤ 1103) ∨ c = 1025 ∨ c = 1105)

/-- Python `str.lower` on one codepoint, over the Latin and Cyrillic ranges:
A-Z and А-Я shift by 32, Ё (U+0401) maps to ё (U+0451). -/
def lowerChar (c : Nat) : Nat :=
  if 65 ≤ c ∧ c ≤ 90 then c + 32
  else if 1040 ≤ c ∧ c ≤ 1071 then c + 32
  else if c = 1025 then 1105
  else c

/-- The single-character substitution `replace('ё', 'е')` of `normalize_fio`:
ё (U+0451) maps to е (U+0435). -/
def foldYo (c : Nat) : Nat := if c = 1105 then 1077 else c

/-- Python `str.strip()`: drop leading and trailing whitespace. -/
def pyStrip (s : PyStr) : PyStr :=
  ((s.dropWhile isSpace).reverse.dropWhile isSpace).reverse

/-- Worker for `pySplitWs`; `acc` holds the reversed current token. -/
def splitWsAux : PyStr → PyStr → List PyStr
  | [], acc => if acc.isEmpty then [] else [acc.reverse]
  | c :: cs, acc =>
    if isSpace c then
      if acc.isEmpty then splitWsAux cs [] else acc.reverse :: splitWsAux cs []
    else splitWsAux cs (c :: acc)

/-- Python `str.split()` with no separator: split on whitespace runs,
discarding empty tokens. -/
def pySplitWs (s : PyStr) : List PyStr := splitWsAux s []

/-- Worker for `pySplitNl`. -/
def splitLinesAux : PyStr → PyStr → List PyStr
  | [], acc => [acc.reverse]
  | c :: cs, acc =>
    if c = 10 then acc.reverse :: splitLinesAux cs [] else splitLinesAux cs (c :: acc)

/-- Python `text.split('\n')`: split on every newline, keeping empty pieces. -/
def pySplitNl (s : PyStr) : List PyStr := splitLinesAux s []

/-- Python `line.split(':', 1)` together with the `':' in line` test:
`some (before, after)` at the first colon (58), `none` if there is no colon. -/
def splitFirstColon : PyStr → Option (PyStr × PyStr)
  | [] => none
  | c :: cs =>
    if c = 58 then some ([], cs)
    else
      match splitFirstColon cs with
      | none => none
      | some kv => some (c :: kv.1, kv.2)

/-- Numeric value of a string of ASCII digits (Python `int` on a digit string). -/
def digitsToNat (s : PyStr) : Nat := List.foldl (fun n c => 10 * n + (c - 48)) 0 s

/-- Python `str.isdigit()` (ASCII digits): non-empty and all digits. -/
def pyIsDigit (s : PyStr) : Bool := !s.isEmpty && s.all isDigitC

/-- Python `str.isalpha()` over the modelled letter ranges. -/
def pyIsAlpha (s : PyStr) : Bool := !s.isEmpty && s.all isAlphaC

/-- `some` of the value of a non-empty all-digit string, else `none`. -/
def digitsOpt (ds : PyStr) : Option Nat :=
  if !ds.isEmpty && ds.all isDigitC then some (digitsToNat ds) else none

/-- Python `int(value)` as used by `format_for_db` (which catches `ValueError`
and returns `None`): surrounding whitespace is stripped, an optional sign is
followed by a non-empty run of ASCII digits.  (Underscore digit separators,
a rarely used Python extension, are not modelled.) -/
def pyInt (s : PyStr) : Option Int :=
  match pyStrip s with
  | 43 :: ds => (digitsOpt ds).map (fun n => (n : Int))
  | 45 :: ds => (digitsOpt ds).map (fun n => -(n : Int))
  | ds => (digitsOpt ds).map (fun n => (n : Int))

/-- The per-token normalization `norm` inside `normalize_fio`:
`s.strip().lower().replace('ё', 'е')`. -/
def normTok (s : PyStr) : PyStr := ((pyStrip s).map lowerChar).map foldYo

/-- `normalize_fio(raw_fio)` from the source: empty input gives the empty set;
otherwise strip, split on whitespace, drop tokens that strip to empty,
normalize each token, keep at most the first two, and take the set. -/
def normalize_fio (raw : PyStr) : Finset PyStr :=
  if raw = [] then ∅
  else
    List.toFinset
      (((((pySplitWs (pyStrip raw))).filter (fun p => !(pyStrip p).isEmpty)).map normTok).take 2)

/-- The candidate test inside `check_user`'s row loop:
`fio_set.issubset(db_fio_set) or db_fio_set.issubset(fio_set)`. -/
def matchesRow (fio_set : Finset PyStr) (row : PyStr) : Bool :=
  decide (fio_set ⊆ normalize_fio row) || decide (normalize_fio row ⊆ fio_set)

/-- `check_user(fio, year, klass)` from the source.  `db` is the roster store:
`db y k = some rows` is the `fio` column of the rows with `year = y AND
klass = k`; `db y k = none` models the query/connection raising, which the
source catches and turns into `False`.  The guards mirror the source order:
Python truthiness of the three fields, then non-emptiness of the normalized
name set, then `format_for_db` integer coercion of year and class. -/
def check_user (db : Int → Int → Option (List PyStr)) (fio year klass : PyStr) : Bool :=
  if fio = [] ∨ year = [] ∨ klass = [] then false
  else if normalize_fio fio = ∅ then false
  else
    match pyInt year, pyInt klass with
    | some fy, some fk =>
      match db fy fk with
      | none => false
      | some rows => rows.any (fun row => matchesRow (normalize_fio fio) row)
    | _, _ => false

/-- The labeled-format accumulator of `parse_text`: the `data` dict with keys
`'фио'`, `'год'`, `'класс'`. -/
structure ParsedData where
  fio : Option PyStr
  god : Option PyStr
  kl : Option PyStr
  deriving DecidableEq

/-- One iteration of `parse_text`'s labeled-line loop: strip the line, split at
the first colon, lowercase the key, and store the stripped value under the
matching synonym group (later lines overwrite earlier ones). -/
def classifyLine (d : ParsedData) (rawLine : PyStr) : ParsedData :=
  match splitFirstColon (pyStrip rawLine) with
  | none => d
  | some kv =>
    if (pyStrip kv.1).map lowerChar = pys ("фио") ∨
       (pyStrip kv.1).map lowerChar = pys ("фамилия имя") ∨
       (pyStrip kv.1).map lowerChar = pys ("имя фамилия") ∨
       (pyStrip kv.1).map lowerChar = pys ("fio") then
      ⟨some (pyStrip kv.2), d.god, d.kl⟩
    else if (pyStrip kv.1).map lowerChar = pys ("год") ∨
            (pyStrip kv.1).map lowerChar = pys ("год выпуска") ∨
            (pyStrip kv.1).map lowerChar = pys ("year") then
      ⟨d.fio, some (pyStrip kv.2), d.kl⟩
    else if (pyStrip kv.1).map lowerChar = pys ("класс") ∨
            (pyStrip kv.1).map lowerChar = pys ("class") ∨
            (pyStrip kv.1).map lowerChar = pys ("группа") then
      ⟨d.fio, d.god, some (pyStrip kv.2)⟩
    else d

/-- The labeled-line pass of `parse_text`: fold `classifyLine` over the
newline-split lines, starting from the empty dict. -/
def labeledData (text : PyStr) : ParsedData :=
  List.foldl classifyLine ⟨none, none, none⟩ (pySplitNl text)

/-- Python truthiness of `data.get(key)`: present and a non-empty string. -/
def truthyOpt : Option PyStr → Bool
  | none => false
  | some s => !s.isEmpty

/-- The freeform accumulator of `parse_text`: `year_part`, `class_part`,
`name_parts`. -/
structure FreeAcc where
  year_part : Option PyStr
  class_part : Option PyStr
  name_parts : List PyStr
  deriving DecidableEq

/-- One iteration of `parse_text`'s freeform token loop: an all-digit token of
length 4 in [1950, 2030] becomes the year, an all-digit token of length 1-2 in
[1, 11] becomes the class (later hits overwrite), everything else is appended
to the name. -/
def classifyTok (a : FreeAcc) (p : PyStr) : FreeAcc :=
  if pyIsDigit p then
    if p.length = 4 ∧ 1950 ≤ digitsToNat p ∧ digitsToNat p ≤ 2030 then
      ⟨some p, a.class_part, a.name_parts⟩
    else if (p.length = 1 ∨ p.length = 2) ∧ 1 ≤ digitsToNat p ∧ digitsToNat p ≤ 11 then
      ⟨a.year_part, some p, a.name_parts⟩
    else ⟨a.year_part, a.class_part, a.name_parts ++ [p]⟩
  else ⟨a.year_part, a.class_part, a.name_parts ++ [p]⟩

/-- `' '.join(name_parts)`: concatenate tokens with a single space (32). -/
def joinSpace : List PyStr → PyStr
  | [] => []
  | [t] => t
  | t :: ts => t ++ 32 :: joinSpace ts

/-- The freeform strategy of `parse_text` ("Федоров Сергей 2010 2"): tokenize
on whitespace; with at least 3 tokens, classify each, and succeed only when a
year and a class were found and at least two name tokens remain. -/
def parse_freeform (text : PyStr) : Option (PyStr × PyStr × PyStr) :=
  if 3 ≤ (pySplitWs (pyStrip text)).length then
    if truthyOpt (List.foldl classifyTok ⟨none, none, []⟩ (pySplitWs (pyStrip text))).year_part &&
       truthyOpt (List.foldl classifyTok ⟨none, none, []⟩ (pySplitWs (pyStrip text))).class_part &&
       decide (2 ≤ (List.foldl classifyTok ⟨none, none, []⟩ (pySplitWs (pyStrip text))).name_parts.length) then
      some (joinSpace (List.foldl classifyTok ⟨none, none, []⟩ (pySplitWs (pyStrip text))).name_parts,
            (List.foldl classifyTok ⟨none, none, []⟩ (pySplitWs (pyStrip text))).year_part.getD [],
            (List.foldl classifyTok ⟨none, none, []⟩ (pySplitWs (pyStrip text))).class_part.getD [])
    else none
  else none

/-- `parse_text(text)` from the source: `None` for falsy input; the labeled
strategy if all three dict entries are truthy; otherwise the freeform
strategy.  `none` models the `(None, None, None)` return. -/
def parse_text (text : PyStr) : Option (PyStr × PyStr × PyStr) :=
  if text = [] then none
  else
    if truthyOpt (labeledData text).fio && truthyOpt (labeledData text).god &&
       truthyOpt (labeledData text).kl then
      some ((labeledData text).fio.getD [], (labeledData text).god.getD [],
            (labeledData text).kl.getD [])
    else parse_freeform text

/-- The step field of a conversation state (`state['step']`). -/
inductive Step
  | waiting_name
  | waiting_year
  | waiting_class
  | waiting_teacher
  deriving DecidableEq

/-- A per-user conversation state (`user_states[user_id]`): the current step
and the collected `data` dict entries. -/
structure ConvState where
  step : Step
  fio : Option PyStr
  year : Option PyStr
  klass : Option PyStr
  teacher : Option PyStr
  deriving DecidableEq

/-- The fresh state written by `start_step_input`:
`{'step': 'waiting_name', 'data': {}}`. -/
def freshConvState : ConvState := ⟨Step.waiting_name, none, none, none, none⟩

/-- The user-visible reply chosen by `handle_step_input`. -/
inductive StepReply
  | cancelled
  | askYear
  | askClass
  | askTeacher
  | reAskName
  | reAskYear
  | reAskClass
  | successMsg
  | notFoundMsg
  deriving DecidableEq

/-- `text.strip().lower()`, the comparison form used for `/cancel`
and `/start`. -/
def lowStrip (text : PyStr) : PyStr := (pyStrip text).map lowerChar

/-- `handle_step_input(user_id, text, ...)` from the source, for a user whose
state is `st`: the returned `Option ConvState` is the user's entry in
`user_states` afterwards (`none` models `del user_states[user_id]`).  The
`/cancel` comparison precedes the step dispatch, as in the source.  On the
terminal teacher step the state is deleted and the accumulated claim goes to
`check_user` (a `successMsg` reply corresponds to `verified_users.add`).  The
out-of-scope profile-name moderation check (an external `get_chat` call that
only intercepts users with forbidden profile names) is modelled as passing. -/
def handle_step_input (db : Int → Int → Option (List PyStr)) (st : ConvState)
    (text : PyStr) : Option ConvState × StepReply :=
  if lowStrip text = pys ("/cancel") then (none, StepReply.cancelled)
  else
    match st.step with
    | Step.waiting_name =>
      if 2 ≤ (pySplitWs (pyStrip text)).length then
        (some ⟨Step.waiting_year, some (pyStrip text), st.year, st.klass, st.teacher⟩,
         StepReply.askYear)
      else (some st, StepReply.reAskName)
    | Step.waiting_year =>
      if pyIsDigit (pyStrip text) ∧
         1950 ≤ digitsToNat (pyStrip text) ∧ digitsToNat (pyStrip text) ≤ 2030 then
        (some ⟨Step.waiting_class, st.fio, some (pyStrip text), st.klass, st.teacher⟩,
         StepReply.askClass)
      else (some st, StepReply.reAskYear)
    | Step.waiting_class =>
      if pyIsDigit (pyStrip text) ∧
         1 ≤ digitsToNat (pyStrip text) ∧ digitsToNat (pyStrip text) ≤ 11 then
        (some ⟨Step.waiting_teacher, st.fio, st.year, some (pyStrip text), st.teacher⟩,
         StepReply.askTeacher)
      else (some st, StepReply.reAskClass)
    | Step.waiting_teacher =>
      if check_user db (st.fio.getD []) (st.year.getD []) (st.klass.getD []) then
        (none, StepReply.successMsg)
      else (none, StepReply.notFoundMsg)

/-- Point update of the `user_states` map. -/
def updState (m : Nat → Option ConvState) (uid : Nat) (v : Option ConvState) :
    Nat → Option ConvState :=
  fun u => if u = uid then v else m u

/-- `start_step_input(user_id, ...)`: unconditionally assigns a fresh state to
the user (`user_states[user_id] = {'step': 'waiting_name', 'data': {}}`).
The external profile-name moderation check is modelled as passing. -/
def start_step_input (states : Nat → Option ConvState) (uid : Nat) :
    Nat → Option ConvState :=
  updState states uid (some freshConvState)

/-- The two global mutable collections of the bot:
`user_states` and `verified_users`. -/
structure BotState where
  states : Nat → Option ConvState
  verified : Finset Nat

/-- The user-visible outcome of `handle_private_message`. -/
inductive PrivAction
  | adminGreeting
  | stepHandled (r : StepReply)
  | startedIntake
  | instructionMsg
  | incompleteMsg
  | successMsg
  | notFoundMsg
  deriving DecidableEq

/-- `handle_private_message(user_id, text, ...)` from the source: the admin
`/start` greeting; else, a user with an active state is routed to
`handle_step_input` (a `successMsg` step reply adds the user to
`verified_users`); else `/start` or a two-alphabetic-word message starts the
step intake; else the message is parsed and, when complete, checked against
the roster (adding to `verified_users` on success).  The external profile-name
moderation check is modelled as passing. -/
def handle_private_message (db : Int → Int → Option (List PyStr)) (admin_id : Nat)
    (s : BotState) (uid : Nat) (text : PyStr) : BotState × PrivAction :=
  if uid = admin_id ∧ lowStrip text = pys ("/start") then (s, PrivAction.adminGreeting)
  else
    match s.states uid with
    | some st =>
      (⟨updState s.states uid (handle_step_input db st text).1,
        if (handle_step_input db st text).2 = StepReply.successMsg then
          insert uid s.verified
        else s.verified⟩,
       PrivAction.stepHandled (handle_step_input db st text).2)
    | none =>
      if lowStrip text = pys ("/start") then
        (⟨start_step_input s.states uid, s.verified⟩, PrivAction.startedIntake)
      else if (pySplitWs (pyStrip text)).length = 2 ∧
              (pySplitWs (pyStrip text)).all pyIsAlpha then
        (⟨start_step_input s.states uid, s.verified⟩, PrivAction.startedIntake)
      else
        match parse_text text with
        | none => (s, PrivAction.instructionMsg)
        | some fyk =>
          if fyk.1 = [] then (s, PrivAction.instructionMsg)
          else if fyk.2.1 ≠ [] ∧ fyk.2.2 ≠ [] then
            if check_user db fyk.1 fyk.2.1 fyk.2.2 then
              (⟨s.states, insert uid s.verified⟩, PrivAction.successMsg)
            else (s, PrivAction.notFoundMsg)
          else (s, PrivAction.incompleteMsg)

/-- The action taken by `handle_join_request` on one join-request event. -/
inductive JoinAction
  | approveVerified
  | ignoredNoBio
  | declinedIncomplete
  | approvedMatch
  | declinedNotFound
  deriving DecidableEq

/-- `handle_join_request` from the source, reduced to its decision on the
`verified_users` whitelist and the bio: a whitelisted user is approved and
discarded from the whitelist; a falsy bio is ignored; an unparsable bio is
declined; otherwise `check_user` decides.  Admin notifications and the
post-approval roster write-back are side effects outside the decision; the
transport approve/decline calls are modelled as succeeding. -/
def handle_join_request (db : Int → Int → Option (List PyStr))
    (verified : Finset Nat) (uid : Nat) (bio : Option PyStr) :
    JoinAction × Finset Nat :=
  if uid ∈ verified then (JoinAction.approveVerified, verified.erase uid)
  else if bio.getD [] = [] then (JoinAction.ignoredNoBio, verified)
  else
    match parse_text (bio.getD []) with
    | none => (JoinAction.declinedIncomplete, verified)
    | some fyk =>
      if fyk.1 = [] ∨ fyk.2.1 = [] ∨ fyk.2.2 = [] then
        (JoinAction.declinedIncomplete, verified)
      else if check_user db fyk.1 fyk.2.1 fyk.2.2 then
        (JoinAction.approvedMatch, verified)
      else (JoinAction.declinedNotFound, verified)

/-! ### Helper lemmas about the string model -/

/-- Pushing a whitespace-free block through the splitter accumulates it. -/
theorem splitWsAux_append_nospace (t rest acc : PyStr) (h : ∀ c ∈ t, isSpace c = false) :
    splitWsAux (t ++ rest) acc = splitWsAux rest (t.reverse ++ acc) := by
  induction t generalizing acc with
  | nil => simp
  | cons c cs ih =>
    simp only [List.cons_append, splitWsAux, h c (by simp), Bool.false_eq_true, if_false,
      List.append_eq]
    rw [ih (c :: acc) (fun x hx => h x (by simp [hx]))]
    simp

/-- Splitting an all-whitespace string only flushes the accumulator. -/
theorem splitWsAux_spaces (w : PyStr) (acc : PyStr) (h : ∀ c ∈ w, isSpace c = true) :
    splitWsAux w acc = if acc.isEmpty then [] else [acc.reverse] := by
  induction w generalizing acc with
  | nil => rfl
  | cons c cs ih =>
    simp only [splitWsAux, h c (by simp), if_true]
    by_cases ha : acc.isEmpty
    · simp [ha, ih [] (fun x hx => h x (by simp [hx]))]
    · simp [ha, ih [] (fun x hx => h x (by simp [hx]))]

/-- Trailing whitespace does not change the splitter's output. -/
theorem splitWsAux_append_spaces (s w acc : PyStr) (h : ∀ c ∈ w, isSpace c = true) :
    splitWsAux (s ++ w) acc = splitWsAux s acc := by
  induction s generalizing acc with
  | nil =>
    simp only [List.nil_append, splitWsAux_spaces w acc h]
    rfl
  | cons c cs ih =>
    simp only [List.cons_append, splitWsAux]
    by_cases hc : isSpace c
    · by_cases ha : acc.isEmpty <;> simp [hc, ha, ih]
    · simp only [hc, Bool.false_eq_true, if_false]
      exact ih (c :: acc)

/-- Leading whitespace does not change the whitespace split. -/
theorem pySplitWs_dropWhile (s : PyStr) :
    pySplitWs (s.dropWhile isSpace) = pySplitWs s := by
  induction s with
  | nil => rfl
  | cons c cs ih =>
    by_cases hc : isSpace c
    · rw [List.dropWhile_cons_of_pos hc, ih]
      show pySplitWs cs = splitWsAux (c :: cs) []
      simp [pySplitWs, splitWsAux, hc]
    · rw [List.dropWhile_cons_of_neg hc]

/-- Any list is its reversed-side strip plus its trailing whitespace run. -/
theorem reverse_take_drop (t : PyStr) :
    t = (t.reverse.dropWhile isSpace).reverse ++ (t.reverse.takeWhile isSpace).reverse := by
  conv_lhs => rw [← List.reverse_reverse t,
    ← List.takeWhile_append_dropWhile isSpace t.reverse, List.reverse_append]

/-- `strip` removes exactly a leading and a trailing whitespace run. -/
theorem dropWhile_strip (s : PyStr) :
    s.dropWhile isSpace
      = pyStrip s ++ ((s.dropWhile isSpace).reverse.takeWhile isSpace).reverse :=
  reverse_take_drop (s.dropWhile isSpace)

/-- Stripping before the whitespace split is a no-op. -/
theorem pySplitWs_strip (s : PyStr) : pySplitWs (pyStrip s) = pySplitWs s := by
  have h2 : ∀ c ∈ ((s.dropWhile isSpace).reverse.takeWhile isSpace).reverse, isSpace c = true :=
    fun c hc => List.mem_takeWhile_imp (List.mem_reverse.mp hc)
  calc pySplitWs (pyStrip s)
      = splitWsAux (pyStrip s ++ ((s.dropWhile isSpace).reverse.takeWhile isSpace).reverse) [] :=
        (splitWsAux_append_spaces _ _ _ h2).symm
    _ = splitWsAux (s.dropWhile isSpace) [] := by rw [← dropWhile_strip s]
    _ = pySplitWs s := pySplitWs_dropWhile s

/-- Joining with single spaces is a non-empty string when the head token is. -/
theorem joinSpace_ne_nil (t : PyStr) (ts : List PyStr) (h : t ≠ []) :
    joinSpace (t :: ts) ≠ [] := by
  cases ts with
  | nil => simpa [joinSpace] using h
  | cons t2 ts2 =>
    show t ++ 32 :: joinSpace (t2 :: ts2) ≠ []
    simp

/-- Splitting the space-join of non-empty whitespace-free tokens recovers them. -/
theorem pySplitWs_join (ts : List PyStr)
    (h : ∀ t ∈ ts, t ≠ [] ∧ ∀ c ∈ t, isSpace c = false) :
    pySplitWs (joinSpace ts) = ts := by
  induction ts with
  | nil => rfl
  | cons t ts ih =>
    cases ts with
    | nil =>
      have h2 := splitWsAux_append_nospace t [] [] (h t (by simp)).2
      simp only [List.append_nil] at h2
      show splitWsAux t [] = [t]
      rw [h2]
      have h3 : t.reverse.isEmpty = false := by
        simp [List.isEmpty_iff, (h t (by simp)).1]
      simp [splitWsAux, h3]
    | cons t2 ts2 =>
      show splitWsAux (t ++ 32 :: joinSpace (t2 :: ts2)) [] = t :: t2 :: ts2
      rw [splitWsAux_append_nospace t _ [] (h t (by simp)).2]
      simp only [List.append_nil]
      have h3 : t.reverse.isEmpty = false := by
        simp [List.isEmpty_iff, (h t (by simp)).1]
      show splitWsAux (32 :: joinSpace (t2 :: ts2)) t.reverse = t :: t2 :: ts2
      simp only [splitWsAux, show isSpace 32 = true from rfl, if_true, h3,
        Bool.false_eq_true, if_false, List.reverse_reverse]
      show t :: pySplitWs (joinSpace (t2 :: ts2)) = t :: t2 :: ts2
      rw [ih (fun x hx => h x (by simp [hx]))]

/-- Every token produced by the whitespace split is non-empty and
whitespace-free. -/
theorem splitWsAux_mem (s : PyStr) (acc : PyStr) (hacc : ∀ c ∈ acc, isSpace c = false)
    (p : PyStr) (hp : p ∈ splitWsAux s acc) : p ≠ [] ∧ ∀ c ∈ p, isSpace c = false := by
  induction s generalizing acc with
  | nil =>
    simp only [splitWsAux] at hp
    by_cases ha : acc.isEmpty
    · simp [ha] at hp
    · simp only [ha, Bool.false_eq_true, if_false, List.mem_singleton] at hp
      subst hp
      refine ⟨by simpa [List.isEmpty_iff] using ha, ?_⟩
      intro c hc
      exact hacc c (List.mem_reverse.mp hc)
  | cons c cs ih =>
    simp only [splitWsAux] at hp
    by_cases hc : isSpace c
    · simp only [hc, if_true] at hp
      by_cases ha : acc.isEmpty
      · simp only [ha, if_true] at hp
        exact ih [] (by simp) hp
      · simp only [ha, Bool.false_eq_true, if_false, List.mem_cons] at hp
        rcases hp with hp | hp
        · subst hp
          refine ⟨by simpa [List.isEmpty_iff] using ha, ?_⟩
          intro x hx
          exact hacc x (List.mem_reverse.mp hx)
        · exact ih [] (by simp) hp
    · simp only [hc, Bool.false_eq_true, if_false] at hp
      refine ih (c :: acc) ?_ hp
      intro x hx
      rcases List.mem_cons.mp hx with hx | hx
      · subst hx
        simpa using hc
      · exact hacc x hx

/-- Tokens of `pySplitWs` are non-empty and whitespace-free. -/
theorem pySplitWs_mem (s p : PyStr) (hp : p ∈ pySplitWs s) :
    p ≠ [] ∧ ∀ c ∈ p, isSpace c = false :=
  splitWsAux_mem s [] (by simp) p hp

/-- A newline-free string yields a single line. -/
theorem splitLinesAux_no_nl (s acc : PyStr) (h : ∀ c ∈ s, ¬c = 10) :
    splitLinesAux s acc = [acc.reverse ++ s] := by
  induction s generalizing acc with
  | nil => simp [splitLinesAux]
  | cons c cs ih =>
    simp only [splitLinesAux, h c (by simp), if_false]
    rw [ih (c :: acc) (fun x hx => h x (by simp [hx]))]
    simp

/-- `split('\n')` of a newline-free string is that one line. -/
theorem pySplitNl_no_nl (s : PyStr) (h : ∀ c ∈ s, ¬c = 10) : pySplitNl s = [s] := by
  simpa using splitLinesAux_no_nl s [] h

/-- The composite per-character normalization is idempotent. -/
theorem lowerChar_foldYo_fix (c : Nat) :
    foldYo (lowerChar (foldYo (lowerChar c))) = foldYo (lowerChar c) := by
  unfold lowerChar foldYo
  split_ifs <;> omega

/-- Lowering and ё-folding never produce whitespace from non-whitespace. -/
theorem isSpace_normChar (c : Nat) (h : isSpace c = false) :
    isSpace (foldYo (lowerChar c)) = false := by
  simp only [isSpace, decide_eq_false_iff_not] at h ⊢
  unfold lowerChar foldYo
  split_ifs <;> omega

/-- ASCII digits are not whitespace. -/
theorem isSpace_of_digit (c : Nat) (h : isDigitC c = true) : isSpace c = false := by
  simp only [isDigitC, decide_eq_true_eq] at h
  simp only [isSpace, decide_eq_false_iff_not]
  omega

/-- `dropWhile` is the identity on whitespace-free strings. -/
theorem dropWhile_of_nospace (p : PyStr) (h : ∀ c ∈ p, isSpace c = false) :
    p.dropWhile isSpace = p := by
  cases p with
  | nil => rfl
  | cons c cs => exact List.dropWhile_cons_of_neg (by simp [h c (by simp)])

/-- `strip` is the identity on whitespace-free strings. -/
theorem pyStrip_nospace (p : PyStr) (h : ∀ c ∈ p, isSpace c = false) : pyStrip p = p := by
  unfold pyStrip
  rw [dropWhile_of_nospace p h,
    dropWhile_of_nospace _ (fun c hc => h c (List.mem_reverse.mp hc)), List.reverse_reverse]

/-- `norm` keeps tokens whitespace-free. -/
theorem normTok_nospace (p : PyStr) (h : ∀ c ∈ p, isSpace c = false) :
    ∀ c ∈ normTok p, isSpace c = false := by
  intro c hc
  unfold normTok at hc
  rw [pyStrip_nospace p h] at hc
  simp only [List.map_map, List.mem_map, Function.comp] at hc
  obtain ⟨x, hx, rfl⟩ := hc
  exact isSpace_normChar x (h x hx)

/-- `norm` keeps non-empty whitespace-free tokens non-empty. -/
theorem normTok_ne_nil (p : PyStr) (hne : p ≠ []) (h : ∀ c ∈ p, isSpace c = false) :
    normTok p ≠ [] := by
  unfold normTok
  rw [pyStrip_nospace p h]
  simp [hne]

/-- `norm` is idempotent on whitespace-free tokens. -/
theorem normTok_idem (p : PyStr) (h : ∀ c ∈ p, isSpace c = false) :
    normTok (normTok p) = normTok p := by
  show ((pyStrip (normTok p)).map lowerChar).map foldYo = normTok p
  rw [pyStrip_nospace _ (normTok_nospace p h)]
  unfold normTok
  simp only [List.map_map, Function.comp]
  exact List.map_congr_left fun x hx => lowerChar_foldYo_fix x

/-- Every element of a normalized name set is a non-empty, whitespace-free,
normalization-fixed token. -/
theorem normalize_fio_mem_props (raw t : PyStr) (ht : t ∈ normalize_fio raw) :
    t ≠ [] ∧ (∀ c ∈ t, isSpace c = false) ∧ normTok t = t := by
  unfold normalize_fio at ht
  split at ht
  · simp at ht
  · rw [List.mem_toFinset] at ht
    have ht2 := List.mem_of_mem_take ht
    rw [List.mem_map] at ht2
    obtain ⟨p, hp, rfl⟩ := ht2
    have hp2 := (List.mem_filter.mp hp).1
    obtain ⟨hpne, hpns⟩ := pySplitWs_mem _ p hp2
    exact ⟨normTok_ne_nil p hpne hpns, normTok_nospace p hpns, normTok_idem p hpns⟩

/-- A normalized name set has at most two elements. -/
theorem normalize_fio_card_le (raw : PyStr) : (normalize_fio raw).card ≤ 2 := by
  unfold normalize_fio
  split
  · simp
  · calc (List.toFinset _).card
        ≤ ((((pySplitWs (pyStrip raw)).filter (fun p => !(pyStrip p).isEmpty)).map
            normTok).take 2).length := List.toFinset_card_le _
      _ ≤ 2 := List.length_take_le _ _

/-- A string that strips to empty has the empty normalized name set. -/
theorem normalize_fio_of_strip_nil (row : PyStr) (h : pyStrip row = []) :
    normalize_fio row = ∅ := by
  unfold normalize_fio
  split
  · rfl
  · rw [h]
    rfl

/-! ### Claim theorems -/

/-- Claim C1: for a claim with non-empty fields, coercible year/class and a
non-empty normalized name set, when the roster lookup at exactly that
(year, class) pair returns rows, `check_user` is true iff some returned record
matches by token-set containment in either direction (so word order within
the name is irrelevant and the first such candidate suffices). -/
theorem claim_C1_match_iff (db : Int → Int → Option (List PyStr))
    (fio year klass : PyStr) (fy fk : Int) (rows : List PyStr)
    (hfio : fio ≠ []) (hyear : year ≠ []) (hklass : klass ≠ [])
    (hset : normalize_fio fio ≠ ∅)
    (hy : pyInt year = some fy) (hk : pyInt klass = some fk)
    (hdb : db fy fk = some rows) :
    check_user db fio year klass = true ↔
      ∃ row ∈ rows,
        normalize_fio fio ⊆ normalize_fio row ∨ normalize_fio row ⊆ normalize_fio fio := by
  unfold check_user
  rw [if_neg (by simp [hfio, hyear, hklass]), if_neg hset]
  rw [hy, hk]
  dsimp only
  rw [hdb]
  rw [List.any_eq_true]
  constructor
  · rintro ⟨row, hrow, hm⟩
    refine ⟨row, hrow, ?_⟩
    simpa [matchesRow] using hm
  · rintro ⟨row, hrow, hm⟩
    refine ⟨row, hrow, ?_⟩
    simpa [matchesRow] using hm

/-- A witness for C1: the spec's end-to-end example, claim
"Fedorov Sergey 2010 2" against a roster record "Sergey Fedorov" for
(2010, 2): word order is irrelevant and the claim matches. -/
theorem claim_C1_witness :
    pys ("Fedorov Sergey") ≠ [] ∧
    (check_user
        (fun y k => if y = 2010 ∧ k = 2 then some [pys ("Sergey Fedorov")] else some [])
        (pys ("Fedorov Sergey")) (pys ("2010")) (pys ("2")) = true ↔
      ∃ row ∈ [pys ("Sergey Fedorov")],
        normalize_fio (pys ("Fedorov Sergey")) ⊆ normalize_fio row ∨
        normalize_fio row ⊆ normalize_fio (pys ("Fedorov Sergey"))) ∧
    check_user
        (fun y k => if y = 2010 ∧ k = 2 then some [pys ("Sergey Fedorov")] else some [])
        (pys ("Fedorov Sergey")) (pys ("2010")) (pys ("2")) = true := by
  refine ⟨by decide,
    claim_C1_match_iff
      (fun y k => if y = 2010 ∧ k = 2 then some [pys ("Sergey Fedorov")] else some [])
      (pys ("Fedorov Sergey")) (pys ("2010")) (pys ("2")) 2010 2 [pys ("Sergey Fedorov")]
      (by decide) (by decide) (by decide) (by decide) (by decide) (by decide) (by decide),
    by decide⟩

/-- Claim C2: a claim with an empty/missing field, a year or class that fails
integer coercion, or an empty normalized name set is rejected with no roster
lookup at all: `check_user` is false, and its result does not depend on the
store in any way. -/
theorem claim_C2_invalid_no_lookup (db db2 : Int → Int → Option (List PyStr))
    (fio year klass : PyStr)
    (h : fio = [] ∨ year = [] ∨ klass = [] ∨ normalize_fio fio = ∅ ∨
         pyInt year = none ∨ pyInt klass = none) :
    check_user db fio year klass = false ∧
    check_user db fio year klass = check_user db2 fio year klass := by
  have key : ∀ d : Int → Int → Option (List PyStr), check_user d fio year klass = false := by
    intro d
    unfold check_user
    split_ifs with h1 h2
    · rfl
    · rfl
    · rcases h with h | h | h | h | h | h
      · exact absurd (Or.inl h) h1
      · exact absurd (Or.inr (Or.inl h)) h1
      · exact absurd (Or.inr (Or.inr h)) h1
      · exact absurd h h2
      · rw [h]
      · rw [h]
        cases pyInt year <;> rfl
  exact ⟨key db, (key db).trans (key db2).symm⟩

/-- A witness for C2: a claim whose year "20x10" fails integer coercion is
rejected regardless of the store. -/
theorem claim_C2_witness :
    pyInt (pys ("20x10")) = none ∧
    check_user (fun _ _ => some [pys ("Ivan Petrov")]) (pys ("Ivan Petrov"))
      (pys ("20x10")) (pys ("2")) = false ∧
    check_user (fun _ _ => some [pys ("Ivan Petrov")]) (pys ("Ivan Petrov"))
      (pys ("20x10")) (pys ("2")) =
      check_user (fun _ _ => none) (pys ("Ivan Petrov")) (pys ("20x10")) (pys ("2")) := by
  have h := claim_C2_invalid_no_lookup (fun _ _ => some [pys ("Ivan Petrov")])
    (fun _ _ => none) (pys ("Ivan Petrov")) (pys ("20x10")) (pys ("2"))
    (Or.inr (Or.inr (Or.inr (Or.inr (Or.inl (by decide))))))
  exact ⟨by decide, h.1, h.2⟩

/-- Claim C3: when the roster store fails (modelled as the lookup returning
`none`, the source's caught exception), `check_user` returns false for every
claim: the error is absorbed rather than propagated, and it never produces an
approval. -/
theorem claim_C3_store_error_false (db : Int → Int → Option (List PyStr))
    (hdb : ∀ y k, db y k = none) (fio year klass : PyStr) :
    check_user db fio year klass = false := by
  unfold check_user
  split_ifs
  · rfl
  · rfl
  · cases hy : pyInt year with
    | none => rfl
    | some fy =>
      cases hk : pyInt klass with
      | none => rfl
      | some fk =>
        dsimp only
        rw [hdb fy fk]

/-- A witness for C3: a fully failing store rejects the spec's example claim
instead of crashing or approving. -/
theorem claim_C3_witness :
    (fun (_ : Int) (_ : Int) => (none : Option (List PyStr))) 2010 2 = none ∧
    check_user (fun _ _ => none) (pys ("Fedorov Sergey")) (pys ("2010")) (pys ("2")) = false :=
  ⟨rfl, claim_C3_store_error_false _ (fun _ _ => rfl) _ _ _⟩

/-- Claim C10: if the lookup at the claim's (year, class) returns a record
whose stored name is empty or whitespace-only, its normalized token set is
empty, the empty set is a subset of every set, and so `check_user` accepts
every well-formed claim for that (year, class) whatever name was supplied. -/
theorem claim_C10_empty_record_matches_all (db : Int → Int → Option (List PyStr))
    (fio year klass : PyStr) (fy fk : Int) (rows : List PyStr) (row : PyStr)
    (hfio : fio ≠ []) (hyear : year ≠ []) (hklass : klass ≠ [])
    (hset : normalize_fio fio ≠ ∅)
    (hy : pyInt year = some fy) (hk : pyInt klass = some fk)
    (hdb : db fy fk = some rows) (hrow : row ∈ rows) (hempty : pyStrip row = []) :
    check_user db fio year klass = true := by
  unfold check_user
  rw [if_neg (by simp [hfio, hyear, hklass]), if_neg hset]
  rw [hy, hk]
  dsimp only
  rw [hdb]
  rw [List.any_eq_true]
  refine ⟨row, hrow, ?_⟩
  simp [matchesRow, normalize_fio_of_strip_nil row hempty, Finset.empty_subset]

/-- A witness for C10: a roster row holding the whitespace-only name "  " for
(1999, 5) makes the unrelated claim "Anybody Atall 1999 5" verify. -/
theorem claim_C10_witness :
    pyStrip (pys ("  ")) = [] ∧
    check_user (fun y k => if y = 1999 ∧ k = 5 then some [pys ("  ")] else some [])
      (pys ("Anybody Atall")) (pys ("1999")) (pys ("5")) = true :=
  ⟨by decide,
   claim_C10_empty_record_matches_all
     (fun y k => if y = 1999 ∧ k = 5 then some [pys ("  ")] else some [])
     (pys ("Anybody Atall")) (pys ("1999")) (pys ("5")) 1999 5 [pys ("  ")] (pys ("  "))
     (by decide) (by decide) (by decide) (by decide) (by decide) (by decide) (by decide)
     (by decide) (by decide)⟩

/-- Claim C6: a user in the verified whitelist at the time a join request is
handled is approved via the whitelist and removed from it as part of that
approval; a second join request from the same user (with no new verification)
is never auto-approved via the whitelist, so a membership is consumed at most
once per approval. -/
theorem claim_C6_verified_consumed_once (db db2 : Int → Int → Option (List PyStr))
    (verified : Finset Nat) (uid : Nat) (bio bio2 : Option PyStr)
    (h : uid ∈ verified) :
    handle_join_request db verified uid bio
      = (JoinAction.approveVerified, verified.erase uid) ∧
    uid ∉ verified.erase uid ∧
    (handle_join_request db2 (verified.erase uid) uid bio2).1
      ≠ JoinAction.approveVerified := by
  refine ⟨?_, Finset.not_mem_erase uid verified, ?_⟩
  · unfold handle_join_request
    rw [if_pos h]
  · unfold handle_join_request
    rw [if_neg (Finset.not_mem_erase uid verified)]
    split_ifs with hb
    · simp
    · cases hp : parse_text (bio2.getD []) with
      | none =>
        dsimp only
        simp
      | some fyk =>
        dsimp only
        split_ifs <;> simp

/-- A witness for C6: user 7, verified and then joining twice with no bio, is
approved once from the whitelist, the whitelist entry is removed, and the
second request is not auto-approved. -/
theorem claim_C6_witness :
    7 ∈ ({7} : Finset Nat) ∧
    handle_join_request (fun _ _ => some []) ({7} : Finset Nat) 7 none
      = (JoinAction.approveVerified, ({7} : Finset Nat).erase 7) ∧
    7 ∉ ({7} : Finset Nat).erase 7 ∧
    (handle_join_request (fun _ _ => some []) (({7} : Finset Nat).erase 7) 7 none).1
      ≠ JoinAction.approveVerified := by
  have h := claim_C6_verified_consumed_once (fun _ _ => some []) (fun _ _ => some [])
    ({7} : Finset Nat) 7 none none (by decide)
  exact ⟨by decide, h.1, h.2.1, h.2.2⟩

/-- Claim C7: `/cancel` (case-insensitively, after stripping) at any step
deletes the user's conversation state immediately with no further processing
of that message — the step handler's result is `(none, cancelled)` whatever
the step, the collected data and the store — and a subsequent message from
that user is handled statelessly (it can never reach the step handler). -/
theorem claim_C7_cancel_clears_state (db db2 : Int → Int → Option (List PyStr))
    (admin_id : Nat) (s : BotState) (uid : Nat) (st : ConvState) (text text2 : PyStr)
    (hst : s.states uid = some st) (hc : lowStrip text = pys ("/cancel")) :
    handle_step_input db st text = (none, StepReply.cancelled) ∧
    (handle_private_message db admin_id s uid text).1.states uid = none ∧
    (handle_private_message db admin_id s uid text).2
      = PrivAction.stepHandled StepReply.cancelled ∧
    ∀ r, (handle_private_message db2 admin_id
            (handle_private_message db admin_id s uid text).1 uid text2).2
          ≠ PrivAction.stepHandled r := by
  have hcancel : handle_step_input db st text = (none, StepReply.cancelled) := by
    unfold handle_step_input
    rw [if_pos hc]
  have hne : ¬(uid = admin_id ∧ lowStrip text = pys ("/start")) := by
    rintro ⟨-, h2⟩
    rw [hc] at h2
    exact absurd h2 (by decide)
  have hmain : handle_private_message db admin_id s uid text
      = (⟨updState s.states uid none, s.verified⟩,
         PrivAction.stepHandled StepReply.cancelled) := by
    unfold handle_private_message
    rw [if_neg hne, hst]
    dsimp only
    rw [hcancel]
    simp
  have hstateless : ∀ s1 : BotState, s1.states uid = none →
      ∀ r, (handle_private_message db2 admin_id s1 uid text2).2
        ≠ PrivAction.stepHandled r := by
    intro s1 h0 r
    unfold handle_private_message
    by_cases hadm : uid = admin_id ∧ lowStrip text2 = pys ("/start")
    · rw [if_pos hadm]
      simp
    · rw [if_neg hadm, h0]
      dsimp only
      by_cases hs : lowStrip text2 = pys ("/start")
      · rw [if_pos hs]
        simp
      · rw [if_neg hs]
        by_cases h2 : (pySplitWs (pyStrip text2)).length = 2 ∧
            (pySplitWs (pyStrip text2)).all pyIsAlpha = true
        · rw [if_pos h2]
          simp
        · rw [if_neg h2]
          cases hp : parse_text text2 with
          | none =>
            dsimp only
            simp
          | some fyk =>
            dsimp only
            by_cases hf : fyk.1 = []
            · rw [if_pos hf]
              simp
            · rw [if_neg hf]
              by_cases hyk : fyk.2.1 ≠ [] ∧ fyk.2.2 ≠ []
              · rw [if_pos hyk]
                by_cases hcu : check_user db2 fyk.1 fyk.2.1 fyk.2.2 = true
                · rw [if_pos hcu]
                  simp
                · rw [if_neg hcu]
                  simp
              · rw [if_neg hyk]
                simp
  have hdel : (handle_private_message db admin_id s uid text).1.states uid = none := by
    rw [hmain]
    simp [updState]
  exact ⟨hcancel, hdel, by rw [hmain], fun r => hstateless _ hdel r⟩

/-- A witness for C7: user 3, mid-intake at the class step, sends " /CANCEL ":
the state is deleted, the reply is the cancellation, and a following message
is not handled as step input. -/
theorem claim_C7_witness :
    (⟨fun u => if u = 3 then
        some ⟨Step.waiting_class, some (pys ("Ivan Petrov")), some (pys ("2001")),
              none, none⟩
      else none, ∅⟩ : BotState).states 3
      = some ⟨Step.waiting_class, some (pys ("Ivan Petrov")), some (pys ("2001")),
              none, none⟩ ∧
    handle_step_input (fun _ _ => some [])
      ⟨Step.waiting_class, some (pys ("Ivan Petrov")), some (pys ("2001")), none, none⟩
      (pys (" /CANCEL ")) = (none, StepReply.cancelled) ∧
    (handle_private_message (fun _ _ => some []) 0
      (⟨fun u => if u = 3 then
          some ⟨Step.waiting_class, some (pys ("Ivan Petrov")), some (pys ("2001")),
                none, none⟩
        else none, ∅⟩ : BotState) 3 (pys (" /CANCEL "))).1.states 3 = none := by
  have h := claim_C7_cancel_clears_state (fun _ _ => some []) (fun _ _ => some []) 0
    (⟨fun u => if u = 3 then
        some ⟨Step.waiting_class, some (pys ("Ivan Petrov")), some (pys ("2001")),
              none, none⟩
      else none, ∅⟩ : BotState) 3
    ⟨Step.waiting_class, some (pys ("Ivan Petrov")), some (pys ("2001")), none, none⟩
    (pys (" /CANCEL ")) (pys ("hello")) (by decide) (by decide)
  exact ⟨by decide, h.1, h.2.1⟩

/-- Counterexample to claim C8: user 1 (admin is 0) is mid-intake at the
year step with a collected name; sending `/start` does NOT replace the state
with a fresh AwaitingName state — the message is routed to the step handler,
which re-prompts for the year and leaves the old state (step and collected
name) in place. -/
theorem claim_C8_counterexample :
    (handle_private_message (fun _ _ => some []) 0
        (⟨fun u => if u = 1 then
            some ⟨Step.waiting_year, some (pys ("Ivan Petrov")), none, none, none⟩
          else none, ∅⟩ : BotState) 1 (pys ("/start"))).1.states 1
      = some ⟨Step.waiting_year, some (pys ("Ivan Petrov")), none, none, none⟩ ∧
    (handle_private_message (fun _ _ => some []) 0
        (⟨fun u => if u = 1 then
            some ⟨Step.waiting_year, some (pys ("Ivan Petrov")), none, none, none⟩
          else none, ∅⟩ : BotState) 1 (pys ("/start"))).1.states 1
      ≠ some freshConvState ∧
    (handle_private_message (fun _ _ => some []) 0
        (⟨fun u => if u = 1 then
            some ⟨Step.waiting_year, some (pys ("Ivan Petrov")), none, none, none⟩
          else none, ∅⟩ : BotState) 1 (pys ("/start"))).2
      = PrivAction.stepHandled StepReply.reAskYear := by
  refine ⟨by decide, by decide, by decide⟩

/-- Claim C8 as amended: `start_step_input` itself replaces any prior state
unconditionally with a fresh AwaitingName state and empty collected data, and
it is reached from a `/start` message only when the user has no active state;
a user who already has an active state at any step has every message —
including `/start` — processed by the step handler, leaving the new-session
replacement unreachable for them. -/
theorem claim_C8_amended_start_semantics :
    (∀ (states : Nat → Option ConvState) (uid : Nat),
      start_step_input states uid uid = some freshConvState) ∧
    (∀ (db : Int → Int → Option (List PyStr)) (admin_id : Nat) (s : BotState)
       (uid : Nat) (st : ConvState) (text : PyStr),
      uid ≠ admin_id → s.states uid = some st →
      handle_private_message db admin_id s uid text
        = (⟨updState s.states uid (handle_step_input db st text).1,
            if (handle_step_input db st text).2 = StepReply.successMsg then
              insert uid s.verified
            else s.verified⟩,
           PrivAction.stepHandled (handle_step_input db st text).2)) ∧
    (∀ (db : Int → Int → Option (List PyStr)) (admin_id : Nat) (s : BotState)
       (uid : Nat) (text : PyStr),
      uid ≠ admin_id → s.states uid = none → lowStrip text = pys ("/start") →
      handle_private_message db admin_id s uid text
        = (⟨start_step_input s.states uid, s.verified⟩, PrivAction.startedIntake)) := by
  refine ⟨?_, ?_, ?_⟩
  · intro states uid
    simp [start_step_input, updState]
  · intro db admin_id s uid st text huid hst
    unfold handle_private_message
    rw [if_neg (fun h => huid h.1), hst]
  · intro db admin_id s uid text huid hst htext
    unfold handle_private_message
    rw [if_neg (fun h => huid h.1), hst]
    dsimp only
    rw [if_pos htext]

/-- A witness for C8 (amended): user 2 (admin 0) with no active state sends
`/start` and gets a fresh AwaitingName state; applied on top of the
overwrite-unconditionally part evaluated at a map that already held a state. -/
theorem claim_C8_witness :
    start_step_input
        (fun u => if u = 2 then
            some ⟨Step.waiting_class, some (pys ("Ivan Petrov")), some (pys ("2001")),
                  none, none⟩
          else none) 2 2 = some freshConvState ∧
    (2 : Nat) ≠ 0 ∧
    handle_private_message (fun _ _ => some []) 0
        (⟨fun _ => none, ∅⟩ : BotState) 2 (pys ("/start"))
      = (⟨start_step_input (fun _ => none) 2, ∅⟩, PrivAction.startedIntake) :=
  ⟨claim_C8_amended_start_semantics.1
      (fun u => if u = 2 then
          some ⟨Step.waiting_class, some (pys ("Ivan Petrov")), some (pys ("2001")),
                none, none⟩
        else none) 2,
   by decide,
   claim_C8_amended_start_semantics.2.2 (fun _ _ => some []) 0
     (⟨fun _ => none, ∅⟩ : BotState) 2 (pys ("/start")) (by decide) rfl (by decide)⟩

/-- Counterexample to claim C5: the labeled-line input
"Год: 2010\nКласс: 2\nИмя: Иван Петров" — every line of the form key: value —
has no full-name key ("Имя" alone is not a listed synonym), yet `parse_text`
does not return Incomplete: the freeform fallback fires on the raw text and
returns a triple. -/
theorem claim_C5_counterexample :
    (labeledData (pys ("Год: 2010\nКласс: 2\nИмя: Иван Петров"))).fio = none ∧
    parse_text (pys ("Год: 2010\nКласс: 2\nИмя: Иван Петров"))
      = some (pys ("Год: Класс: Имя: Иван Петров"), pys ("2010"), pys ("2")) := by
  refine ⟨by decide, by decide⟩

/-- Claim C5 as amended: a labeled-line input whose accumulated dict has all
three keys with non-empty values (any synonym, any line order) succeeds with
exactly those values; when any key is missing or empty the labeled strategy
yields no triple and `parse_text` falls through to the freeform strategy, so
the result is Incomplete only if the freeform fallback also fails. -/
theorem claim_C5_amended_labeled :
    (∀ text : PyStr,
      truthyOpt (labeledData text).fio = true →
      truthyOpt (labeledData text).god = true →
      truthyOpt (labeledData text).kl = true →
      parse_text text
        = some ((labeledData text).fio.getD [], (labeledData text).god.getD [],
                (labeledData text).kl.getD [])) ∧
    (∀ text : PyStr,
      (truthyOpt (labeledData text).fio && truthyOpt (labeledData text).god &&
        truthyOpt (labeledData text).kl) = false →
      parse_text text = parse_freeform text) := by
  constructor
  · intro text h1 h2 h3
    by_cases htext : text = []
    · subst htext
      have : labeledData [] = ⟨none, none, none⟩ := rfl
      rw [this] at h1
      exact absurd h1 (by decide)
    · unfold parse_text
      rw [if_neg htext, if_pos (by rw [h1, h2, h3]; rfl)]
  · intro text h
    by_cases htext : text = []
    · subst htext
      rfl
    · unfold parse_text
      rw [if_neg htext, if_neg (by rw [h]; exact Bool.false_ne_true)]

/-- A witness for C5 (amended): the labeled input
"ФИО: Иван Петров\nГод: 2015\nКласс: 3" has all three keys and parses to
exactly the labeled values. -/
theorem claim_C5_witness :
    truthyOpt (labeledData (pys ("ФИО: Иван Петров\nГод: 2015\nКласс: 3"))).fio = true ∧
    parse_text (pys ("ФИО: Иван Петров\nГод: 2015\nКласс: 3"))
      = some ((labeledData (pys ("ФИО: Иван Петров\nГод: 2015\nКласс: 3"))).fio.getD [],
              (labeledData (pys ("ФИО: Иван Петров\nГод: 2015\nКласс: 3"))).god.getD [],
              (labeledData (pys ("ФИО: Иван Петров\nГод: 2015\nКласс: 3"))).kl.getD []) :=
  ⟨by decide,
   claim_C5_amended_labeled.1 (pys ("ФИО: Иван Петров\nГод: 2015\nКласс: 3"))
     (by decide) (by decide) (by decide)⟩

/-- Claim C9: normalization is deterministic (it is a pure function) and
idempotent as a set: for a non-empty name string `x`, joining the tokens of
`normalize_fio x` with whitespace — in any order — and normalizing again gives
back exactly `normalize_fio x`. -/
theorem claim_C9_normalize_idempotent (x : PyStr) (l : List PyStr)
    (hx : x ≠ []) (hnd : l.Nodup) (hl : l.toFinset = normalize_fio x) :
    normalize_fio (joinSpace l) = normalize_fio x := by
  have hprops : ∀ t ∈ l, t ≠ [] ∧ (∀ c ∈ t, isSpace c = false) ∧ normTok t = t := by
    intro t ht
    exact normalize_fio_mem_props x t (hl ▸ List.mem_toFinset.mpr ht)
  have hlen : l.length ≤ 2 := by
    have h1 := List.toFinset_card_of_nodup hnd
    have h2 := normalize_fio_card_le x
    rw [hl] at h1
    omega
  cases l with
  | nil =>
    show normalize_fio [] = normalize_fio x
    rw [← hl]
    rfl
  | cons t ts =>
    have hne : joinSpace (t :: ts) ≠ [] :=
      joinSpace_ne_nil t ts (hprops t (by simp)).1
    unfold normalize_fio
    rw [if_neg hne]
    rw [pySplitWs_strip, pySplitWs_join (t :: ts)
      (fun p hp => ⟨(hprops p hp).1, (hprops p hp).2.1⟩)]
    have hfilter : (t :: ts).filter (fun p => !(pyStrip p).isEmpty) = t :: ts := by
      apply List.filter_eq_self.mpr
      intro p hp
      rw [pyStrip_nospace p (hprops p hp).2.1]
      simp [List.isEmpty_iff, (hprops p hp).1]
    rw [hfilter]
    have hmap : (t :: ts).map normTok = t :: ts := by
      calc (t :: ts).map normTok
          = (t :: ts).map id := List.map_congr_left (fun p hp => (hprops p hp).2.2)
        _ = t :: ts := List.map_id _
    rw [hmap, List.take_of_length_le hlen, hl]
    rfl

/-- A witness for C9: "Ivan  Petrov" normalizes to the set with tokens ivan
and petrov; re-normalizing the join of an enumeration in the opposite order
returns the same set. -/
theorem claim_C9_witness :
    pys ("Ivan  Petrov") ≠ [] ∧
    [pys ("petrov"), pys ("ivan")].Nodup ∧
    [pys ("petrov"), pys ("ivan")].toFinset = normalize_fio (pys ("Ivan  Petrov")) ∧
    normalize_fio (joinSpace [pys ("petrov"), pys ("ivan")])
      = normalize_fio (pys ("Ivan  Petrov")) :=
  ⟨by decide, by decide, by decide,
   claim_C9_normalize_idempotent (pys ("Ivan  Petrov")) [pys ("petrov"), pys ("ivan")]
     (by decide) (by decide) (by decide)⟩

/-- Every character of a space-join comes from a token or is the space. -/
theorem mem_joinSpace (ts : List PyStr) (c : Nat) (hc : c ∈ joinSpace ts) :
    (∃ t ∈ ts, c ∈ t) ∨ c = 32 := by
  induction ts with
  | nil => simp [joinSpace] at hc
  | cons t ts ih =>
    cases ts with
    | nil =>
      left
      exact ⟨t, by simp, by simpa [joinSpace] using hc⟩
    | cons t2 ts2 =>
      rw [show joinSpace (t :: t2 :: ts2) = t ++ 32 :: joinSpace (t2 :: ts2) from rfl] at hc
      rcases List.mem_append.mp hc with h | h
      · left
        exact ⟨t, by simp, h⟩
      · rcases List.mem_cons.mp h with h | h
        · right
          exact h
        · rcases ih h with ⟨t3, ht3, hc3⟩ | h32
          · left
            exact ⟨t3, by simp [ht3], hc3⟩
          · right
            exact h32

/-- A single labeled line can set at most one of the three dict keys, so the
all-three-keys condition of `parse_text` fails on one-line input. -/
theorem classifyLine_single_not_all (line : PyStr) :
    (truthyOpt (classifyLine ⟨none, none, none⟩ line).fio &&
     truthyOpt (classifyLine ⟨none, none, none⟩ line).god &&
     truthyOpt (classifyLine ⟨none, none, none⟩ line).kl) = false := by
  unfold classifyLine
  cases h : splitFirstColon (pyStrip line) with
  | none => rfl
  | some kv =>
    dsimp only
    split_ifs <;> simp [truthyOpt]

/-- Claim C4: a freeform input of exactly two non-numeric name tokens (any
capitalization), one 4-digit year token in [1950, 2030] and one 1-2-digit
class token in [1, 11] — in the spec's `"<surname> <given> <year> <class>"`
arrangement — parses to exactly (the two name tokens joined in original order,
the year token, the class token); and whenever the token classification finds
no year, or no class, or leaves fewer than two name tokens, the freeform
strategy does not succeed. -/
theorem claim_C4_freeform_parse :
    (∀ n1 n2 ys cs : PyStr,
      n1 ≠ [] → (∀ c ∈ n1, isSpace c = false) → pyIsDigit n1 = false →
      n2 ≠ [] → (∀ c ∈ n2, isSpace c = false) → pyIsDigit n2 = false →
      ys.length = 4 → (∀ c ∈ ys, isDigitC c = true) →
      1950 ≤ digitsToNat ys → digitsToNat ys ≤ 2030 →
      (cs.length = 1 ∨ cs.length = 2) → (∀ c ∈ cs, isDigitC c = true) →
      1 ≤ digitsToNat cs → digitsToNat cs ≤ 11 →
      parse_text (joinSpace [n1, n2, ys, cs]) = some (joinSpace [n1, n2], ys, cs)) ∧
    (∀ text : PyStr,
      (truthyOpt (List.foldl classifyTok ⟨none, none, []⟩
          (pySplitWs (pyStrip text))).year_part = false ∨
       truthyOpt (List.foldl classifyTok ⟨none, none, []⟩
          (pySplitWs (pyStrip text))).class_part = false ∨
       (List.foldl classifyTok ⟨none, none, []⟩
          (pySplitWs (pyStrip text))).name_parts.length < 2) →
      parse_freeform text = none) := by
  constructor
  · intro n1 n2 ys cs hn1ne hn1ns hn1d hn2ne hn2ns hn2d hysl hysd hyslo hyshi
      hcsl hcsd hcslo hcshi
    have hysne : ys ≠ [] := by
      intro h
      rw [h] at hysl
      simp at hysl
    have hcsne : cs ≠ [] := by
      intro h
      rw [h] at hcsl
      simp at hcsl
    have hysns : ∀ c ∈ ys, isSpace c = false := fun c hc => isSpace_of_digit c (hysd c hc)
    have hcsns : ∀ c ∈ cs, isSpace c = false := fun c hc => isSpace_of_digit c (hcsd c hc)
    have hysdig : pyIsDigit ys = true := by
      simp only [pyIsDigit, Bool.and_eq_true, List.all_eq_true]
      exact ⟨by simp [List.isEmpty_iff, hysne], hysd⟩
    have hcsdig : pyIsDigit cs = true := by
      simp only [pyIsDigit, Bool.and_eq_true, List.all_eq_true]
      exact ⟨by simp [List.isEmpty_iff, hcsne], hcsd⟩
    have htokens : ∀ t ∈ [n1, n2, ys, cs], t ≠ [] ∧ ∀ c ∈ t, isSpace c = false := by
      intro t ht
      simp only [List.mem_cons, List.not_mem_nil, or_false] at ht
      rcases ht with rfl | rfl | rfl | rfl
      · exact ⟨hn1ne, hn1ns⟩
      · exact ⟨hn2ne, hn2ns⟩
      · exact ⟨hysne, hysns⟩
      · exact ⟨hcsne, hcsns⟩
    have hTne : joinSpace [n1, n2, ys, cs] ≠ [] := joinSpace_ne_nil n1 _ hn1ne
    have hno10 : ∀ c ∈ joinSpace [n1, n2, ys, cs], ¬c = 10 := by
      intro c hc hc10
      rcases mem_joinSpace [n1, n2, ys, cs] c hc with ⟨t, ht, hct⟩ | h32
      · have h2 := (htokens t ht).2 c hct
        rw [hc10] at h2
        simp [isSpace] at h2
      · omega
    have hnl : pySplitNl (joinSpace [n1, n2, ys, cs]) = [joinSpace [n1, n2, ys, cs]] :=
      pySplitNl_no_nl _ hno10
    have hlab : (truthyOpt (labeledData (joinSpace [n1, n2, ys, cs])).fio &&
                 truthyOpt (labeledData (joinSpace [n1, n2, ys, cs])).god &&
                 truthyOpt (labeledData (joinSpace [n1, n2, ys, cs])).kl) = false := by
      unfold labeledData
      rw [hnl]
      simp only [List.foldl]
      exact classifyLine_single_not_all _
    have hparts : pySplitWs (pyStrip (joinSpace [n1, n2, ys, cs])) = [n1, n2, ys, cs] := by
      rw [pySplitWs_strip]
      exact pySplitWs_join _ htokens
    have s1 : classifyTok ⟨none, none, []⟩ n1 = ⟨none, none, [n1]⟩ := by
      simp [classifyTok, hn1d]
    have s2 : classifyTok ⟨none, none, [n1]⟩ n2 = ⟨none, none, [n1, n2]⟩ := by
      simp [classifyTok, hn2d]
    have s3 : classifyTok ⟨none, none, [n1, n2]⟩ ys = ⟨some ys, none, [n1, n2]⟩ := by
      simp [classifyTok, hysdig, hysl, hyslo, hyshi]
    have s4 : classifyTok ⟨some ys, none, [n1, n2]⟩ cs = ⟨some ys, some cs, [n1, n2]⟩ := by
      have hcs4 : ¬(cs.length = 4 ∧ 1950 ≤ digitsToNat cs ∧ digitsToNat cs ≤ 2030) := by
        rintro ⟨h4, -⟩
        rcases hcsl with h | h <;> omega
      simp [classifyTok, hcsdig, hcs4, hcsl, hcslo, hcshi]
    have hfold : List.foldl classifyTok ⟨none, none, []⟩ [n1, n2, ys, cs]
        = ⟨some ys, some cs, [n1, n2]⟩ := by
      simp only [List.foldl, s1, s2, s3, s4]
    unfold parse_text
    rw [if_neg hTne, hlab, if_neg Bool.false_ne_true]
    unfold parse_freeform
    rw [hparts, hfold]
    have hcond : (truthyOpt (FreeAcc.mk (some ys) (some cs) [n1, n2]).year_part &&
        truthyOpt (FreeAcc.mk (some ys) (some cs) [n1, n2]).class_part &&
        decide (2 ≤ (FreeAcc.mk (some ys) (some cs) [n1, n2]).name_parts.length)) = true := by
      simp [truthyOpt, List.isEmpty_iff, hysne, hcsne]
    rw [if_pos (by simp), if_pos hcond]
    rfl
  · intro text h
    unfold parse_freeform
    split_ifs with h1 h2
    · exfalso
      rw [Bool.and_eq_true, Bool.and_eq_true] at h2
      rcases h with h | h | h
      · rw [h] at h2
        exact absurd h2.1.1 (by simp)
      · rw [h] at h2
        exact absurd h2.1.2 (by simp)
      · have h3 := of_decide_eq_true h2.2
        omega
    · rfl
    · rfl

/-- A witness for C4: the spec's example tokens Fedorov, Sergey, 2010, 2 parse
to exactly ("Fedorov Sergey", "2010", "2"). -/
theorem claim_C4_witness :
    pys ("Fedorov") ≠ [] ∧
    parse_text (joinSpace [pys ("Fedorov"), pys ("Sergey"), pys ("2010"), pys ("2")])
      = some (joinSpace [pys ("Fedorov"), pys ("Sergey")], pys ("2010"), pys ("2")) :=
  ⟨by decide,
   claim_C4_freeform_parse.1 (pys ("Fedorov")) (pys ("Sergey")) (pys ("2010")) (pys ("2"))
     (by decide) (by decide) (by decide) (by decide) (by decide) (by decide)
     (by decide) (by decide) (by decide) (by decide) (by decide) (by decide)
     (by decide) (by decide)⟩
